import Mathlib

/-!
Verification development for the pynput core: the keyboard `KeyCode`/`Key`
value model, dead-key composition (`KeyCode.join`), the `Controller` dispatch
state machine (`_resolve`, `_dispatch`, `press`, `release`, `type`,
`pressed`), the `HotKey` state machine and combination parser, and the mouse
`_check_bounds` coordinate check.  All definitions are shallow embeddings of
`src/lib/pynput/keyboard/_base.py`, `src/lib/pynput/keyboard/__init__.py` and
`src/lib/pynput/mouse/_xorg.py`.
-/

namespace Pynput

/-- The `Key` enumeration from `keyboard/_base.py` (names only; the
per-platform payload of each member is supplied by a backend, see
`Backend.value` below).  The Python member `end` is written `«end»`. -/
inductive Key where
  | alt | alt_l | alt_r | alt_gr
  | backspace | caps_lock
  | cmd | cmd_l | cmd_r
  | ctrl | ctrl_l | ctrl_r
  | delete | down | «end» | enter | esc
  | f1 | f2 | f3 | f4 | f5 | f6 | f7 | f8 | f9 | f10
  | f11 | f12 | f13 | f14 | f15 | f16 | f17 | f18 | f19 | f20
  | home | left | page_down | page_up | right
  | shift | shift_l | shift_r
  | space | tab | up
  | insert | menu | num_lock | pause | print_screen | scroll_lock
deriving DecidableEq, Repr

/-- Embeds `KeyCode` from `keyboard/_base.py`: virtual key code, optional character,
dead-key flag and, for dead keys, the combining mark looked up by the
constructor.  Equality is structural, matching the spec's data model
(identity by `(vk, char, is_dead)`; `combining` is determined by
`char`/`is_dead`). -/
structure KeyCode where
  vk : Int := 0
  char : Option String := none
  is_dead : Bool := false
  combining : Option String := none
deriving DecidableEq, Repr

/-- An argument accepted by `Controller.press`/`release`: a `Key` member, a
string, a `KeyCode`, or any other Python value (`other`), which `_resolve`
fails to resolve. -/
inductive KeyArg where
  | key (k : Key)
  | str (s : String)
  | code (kc : KeyCode)
  | other
deriving DecidableEq, Repr

/-- The Python exceptions that the embedded operations can raise.
`valueErrorKey` is the `ValueError(key)` raised by `KeyCode.join` (named
`InvalidComposition` by the spec's taxonomy); `valueErrorStr` is the
`ValueError` raised for malformed string keys and hotkey specifications;
`valueErrorInts` the `ValueError(args)` of the mouse bounds check;
`invalidCharacter` is `Controller.InvalidCharacterException(index, char)`;
`invalidKey` is `Controller.InvalidKeyException(key)` (declared in the
source, never raised by it); `attributeError` models the `AttributeError`
Python raises when `None` (an unresolved key) reaches an attribute access
inside `_dispatch`. -/
inductive PyError where
  | valueErrorStr (s : String)
  | valueErrorKey (k : KeyCode)
  | valueErrorInts (args : List Int)
  | attributeError
  | assertionError (msg : String)
  | invalidKey (k : KeyArg)
  | invalidCharacter (index : Nat) (char : String)
deriving DecidableEq, Repr

/-- Whether an exception is (a subclass of) `ValueError`; this is what the
`except ValueError` clauses of `_dispatch` and `type` catch. -/
def PyError.isValueError : PyError → Bool
  | .valueErrorStr _ => true
  | .valueErrorKey _ => true
  | .valueErrorInts _ => true
  | _ => false

instance {ε α : Type} [DecidableEq ε] [DecidableEq α] : DecidableEq (Except ε α) :=
  fun a b =>
    match a, b with
    | .ok x, .ok y =>
        if h : x = y then .isTrue (by rw [h]) else .isFalse (by simp [h])
    | .error x, .error y =>
        if h : x = y then .isTrue (by rw [h]) else .isFalse (by simp [h])
    | .ok _, .error _ => .isFalse (by simp)
    | .error _, .ok _ => .isFalse (by simp)

/-- Embeds `KeyCode.from_vk`. -/
def KeyCode.from_vk (vk : Int) : KeyCode := { vk := vk }

/-- Embeds `KeyCode.from_char`. -/
def KeyCode.from_char (char : String) : KeyCode := { vk := 0, char := some char }

/-- Embeds `KeyCode.from_dead`.  The constructor looks the combining mark up with
`unicodedata.lookup('COMBINING ' + unicodedata.name(char))` and raises
`KeyError` when the lookup fails or yields an empty value; `unicodedata` is
external library code, so the lookup table is a parameter `combMap` and a
failed construction is `none`. -/
def KeyCode.from_dead (combMap : String → Option String) (char : String) :
    Option KeyCode :=
  match combMap char with
  | some m => if m = "" then none
      else some { vk := 0, char := some char, is_dead := true, combining := some m }
  | none => none

/-- Embeds `KeyCode.join` from `keyboard/_base.py`.  `nfc` is the external
`unicodedata.normalize('NFC', ·)` function.  Joining with space or with the
same dead key returns `self.from_char(self.char)`; otherwise, when the other
key carries a character, the concatenation `key.char + self.combining` is
NFC-normalised and, if non-empty, returned via `from_char`; in all remaining
cases `ValueError(key)` is raised. -/
def KeyCode.join (nfc : String → String) (self key : KeyCode) :
    Except PyError KeyCode :=
  if key.char = some " " ∨ (key.is_dead ∧ key.char = self.char) then
    .ok { vk := 0, char := self.char, is_dead := false, combining := none }
  else
    match key.char with
    | some c =>
        let combined := nfc (c ++ self.combining.getD "")
        if combined ≠ "" then .ok (KeyCode.from_char combined)
        else .error (.valueErrorKey key)
    | none => .error (.valueErrorKey key)

example :
    KeyCode.join (fun s => s) { char := some "~", is_dead := true, combining := some "x" }
      (KeyCode.from_char " ") = .ok (KeyCode.from_char "~") := by decide

example :
    KeyCode.join (fun s => s) { char := some "~", is_dead := true, combining := some "x" }
      (KeyCode.from_vk 9) =
    .error (.valueErrorKey (KeyCode.from_vk 9)) := by decide

/-- Python `str.upper()` (a language builtin), character-wise. -/
def strUpper (s : String) : String := String.mk (s.toList.map Char.toUpper)

/-- Python `str.lower()` (a language builtin), character-wise. -/
def strLower (s : String) : String := String.mk (s.toList.map Char.toLower)

/-- A single `Controller._handle(key, is_press)` call (the native injection
primitive; each call made by `_dispatch` is recorded in the controller log). -/
inductive Event where
  | handle (key : KeyCode) (is_press : Bool)
deriving DecidableEq, Repr

/-- Modelled from the spec: the platform backend boundary that is not under
`src/` — `value` is the `Key` member payload table supplied by the active
backend at module load, `nfc` is the external `unicodedata` NFC
normalisation, and `handle` is the result of the native `_handle` injection
primitive, which may fail with a backend error (for example `ValueError` for
an untypable character). -/
structure Backend where
  value : Key → KeyCode
  nfc : String → String
  handle : KeyCode → Bool → Except PyError Unit

/-- The `Controller` state: the canonical-modifier set, the caps-lock flag, the
pending dead key, plus the log of every `_handle` call made so far (the
externally observable injection side effects). -/
structure CState where
  modifiers : List Key := []
  caps_lock : Bool := false
  dead_key : Option KeyCode := none
  log : List Event := []
deriving DecidableEq, Repr

/-- A fresh controller (`Controller.__init__`). -/
def initC : CState := {}

/-- Python `set.add`: insert without duplicating. -/
def setAdd (l : List Key) (k : Key) : List Key := if k ∈ l then l else k :: l

/-- Embeds `Controller._MODIFIER_KEYS`: the ordered modifier table (AltGr checked
before Alt), with the payload of each variant taken from the backend. -/
def modifierKeys (B : Backend) : List (Key × List KeyCode) :=
  [(Key.alt_gr, [B.value Key.alt_gr]),
   (Key.alt,    [B.value Key.alt,   B.value Key.alt_l,   B.value Key.alt_r]),
   (Key.cmd,    [B.value Key.cmd,   B.value Key.cmd_l,   B.value Key.cmd_r]),
   (Key.ctrl,   [B.value Key.ctrl,  B.value Key.ctrl_l,  B.value Key.ctrl_r]),
   (Key.shift,  [B.value Key.shift, B.value Key.shift_l, B.value Key.shift_r])]

/-- The scan loop of `Controller._as_modifier`: first row whose variant list
contains the key wins. -/
def lookupModifier : List (Key × List KeyCode) → KeyCode → Option Key
  | [], _ => none
  | (base, mods) :: rest, k =>
      if k ∈ mods then some base else lookupModifier rest k

/-- Embeds `Controller._as_modifier`. -/
def _as_modifier (B : Backend) (k : KeyCode) : Option Key :=
  lookupModifier (modifierKeys B) k

/-- Embeds `Controller.shift_pressed`: true when caps lock is toggled or the
canonical shift modifier is in the modifier set. -/
def shift_pressed (s : CState) : Bool :=
  s.caps_lock || Key.shift ∈ s.modifiers

/-- One `self._handle(key, is_press)` call: the call is always logged (the
native injection is attempted), and a backend failure is returned as the
propagating exception. -/
def _handleB (B : Backend) (s : CState) (key : KeyCode) (is_press : Bool) :
    CState × Option PyError :=
  ({ s with log := s.log ++ [Event.handle key is_press] },
   match B.handle key is_press with
   | .ok _ => none
   | .error e => some e)

/-- The modifier-bookkeeping stage of `_dispatch`: add the canonical
modifier on press, remove it on release with the `KeyError` of removing an
absent element swallowed (`List.erase` of an absent element is the
identity), and do nothing for non-modifiers. -/
def _dispatchMod (B : Backend) (s0 : CState) (key : KeyCode) (is_press : Bool) :
    CState :=
  match _as_modifier B key with
  | some m =>
      if is_press then { s0 with modifiers := setAdd s0.modifiers m }
      else { s0 with modifiers := s0.modifiers.erase m }
  | none => s0

/-- The caps-lock stage of `_dispatch` (press only): toggle the flag when
the key is the caps-lock payload. -/
def _dispatchCaps (B : Backend) (s1 : CState) (key : KeyCode) : CState :=
  if key = B.value Key.caps_lock then { s1 with caps_lock := !s1.caps_lock }
  else s1

/-- The press core of `_dispatch`: join a pending dead key with the new
key, flushing the pending dead key as a standalone press+release pair when
the join raises `ValueError`; stash a dead key instead of handling it;
otherwise forward to `_handle`. -/
def _dispatchPress (B : Backend) (s2 : CState) (key : KeyCode) :
    CState × Option PyError :=
  match s2.dead_key with
  | some dk =>
      match KeyCode.join B.nfc dk key with
      | .ok joined =>
          let s3 := { s2 with dead_key := none }
          if joined.is_dead then ({ s3 with dead_key := some joined }, none)
          else _handleB B s3 joined true
      | .error _ =>
          let (s3, e3) := _handleB B s2 dk true
          match e3 with
          | some err => (s3, some err)
          | none =>
              let (s4, e4) := _handleB B s3 dk false
              match e4 with
              | some err => (s4, some err)
              | none =>
                  let s5 := { s4 with dead_key := none }
                  if key.is_dead then ({ s5 with dead_key := some key }, none)
                  else _handleB B s5 key true
  | none =>
      if key.is_dead then ({ s2 with dead_key := some key }, none)
      else _handleB B s2 key true

/-- Embeds `Controller._dispatch(key, is_press)` from `keyboard/_base.py`:
modifier bookkeeping, then, on press, caps-lock toggling and the dead-key
press core; on release, dead keys are dropped and everything else is
forwarded to `_handle`.  The second component is the exception propagating
out of the call, if any. -/
def _dispatch (B : Backend) (s0 : CState) (key : KeyCode) (is_press : Bool) :
    CState × Option PyError :=
  let s1 := _dispatchMod B s0 key is_press
  if is_press then _dispatchPress B (_dispatchCaps B s1 key) key
  else
    if key.is_dead then (s1, none)
    else _handleB B s1 key is_press

/-- Embeds `Controller._resolve(key)`: `Key` members resolve to their payload,
1-character strings to `from_char` (other strings raise `ValueError`),
`KeyCode`s with a character are upper-cased while shift is considered
pressed, and anything else falls through — the Python function returns
`None`. -/
def _resolve (B : Backend) (s : CState) : KeyArg → Except PyError (Option KeyCode)
  | .key k => .ok (some (B.value k))
  | .str st =>
      if st.length ≠ 1 then .error (.valueErrorStr st)
      else .ok (some (KeyCode.from_char st))
  | .code kc =>
      .ok (some (if kc.char.isSome && shift_pressed s then
        KeyCode.from_char (strUpper (kc.char.getD "")) else kc))
  | .other => .ok none

/-- Embeds `Controller.press(key)`: `self._dispatch(self._resolve(key), True)`.
When `_resolve` returns `None`, `_dispatch` crashes with `AttributeError`
at the `key.is_dead` attribute access (it never raises
`InvalidKeyException`); no `_handle` call is made and the state is
unchanged on that path. -/
def press (B : Backend) (s : CState) (k : KeyArg) : CState × Option PyError :=
  match _resolve B s k with
  | .error e => (s, some e)
  | .ok (some kc) => _dispatch B s kc true
  | .ok none => (s, some .attributeError)

/-- Embeds `Controller.release(key)`: `self._dispatch(self._resolve(key), False)`. -/
def release (B : Backend) (s : CState) (k : KeyArg) : CState × Option PyError :=
  match _resolve B s k with
  | .error e => (s, some e)
  | .ok (some kc) => _dispatch B s kc false
  | .ok none => (s, some .attributeError)

/-- The loop `for key in args: self.press(key)`, stopping at the first
exception. -/
def pressMany (B : Backend) : CState → List KeyArg → CState × Option PyError
  | s, [] => (s, none)
  | s, k :: rest =>
      match press B s k with
      | (s1, some err) => (s1, some err)
      | (s1, none) => pressMany B s1 rest

/-- The `Controller.pressed(*args)` context manager executed around an empty
body that completes normally: the entry loop presses every key in order,
and the `finally` block — as written in the source — runs
`for key in reversed(args): self.press(key)`, pressing the keys again in
reverse order instead of releasing them. -/
def pressedScope (B : Backend) (s : CState) (args : List KeyArg) :
    CState × Option PyError :=
  match pressMany B s args with
  | (s1, some err) => (s1, some err)
  | (s1, none) => pressMany B s1 args.reverse

/-- The key code `KeyCode.from_char(c)` produced for one character of a
typed string. -/
def fcKC (c : Char) : KeyCode := KeyCode.from_char (String.singleton c)

/-- The `except ValueError: raise self.InvalidCharacterException(i, character)`
rewrapping in `Controller.type`: only `ValueError`s are rewrapped. -/
def rewrapValue (e : PyError) (i : Nat) (c : String) : PyError :=
  if e.isValueError then .invalidCharacter i c else e

/-- The loop body of `Controller.type(string)`:
`for i, character in enumerate(string): press; release`, with any
`ValueError` rewrapped as `InvalidCharacterException(i, character)` and
terminating the whole call. -/
def typeGo (B : Backend) : CState → Nat → List Char → CState × Option PyError
  | s, _, [] => (s, none)
  | s, i, c :: rest =>
      let cs := String.singleton c
      match press B s (.str cs) with
      | (s1, some err) => (s1, some (rewrapValue err i cs))
      | (s1, none) =>
          match release B s1 (.str cs) with
          | (s2, some err) => (s2, some (rewrapValue err i cs))
          | (s2, none) => typeGo B s2 (i + 1) rest

/-- Embeds `Controller.type(string)`. -/
def typeString (B : Backend) (s : CState) (str : String) : CState × Option PyError :=
  typeGo B s 0 str.toList

/-- The press and release `_handle` events produced by successfully typing
the given characters in order. -/
def pressReleaseEvents : List Char → List Event
  | [] => []
  | c :: rest =>
      Event.handle (fcKC c) true :: Event.handle (fcKC c) false ::
        pressReleaseEvents rest

/-- The `HotKey` state from `keyboard/__init__.py`, over an arbitrary key type
(the source stores `Key` members and `KeyCode`s). -/
structure HotKey (κ : Type) [DecidableEq κ] where
  keys : Finset κ
  state : Finset κ

/-- Embeds `HotKey.__init__(keys, on_activate)`: `self._state = set()`. -/
def HotKey.init {κ : Type} [DecidableEq κ] (keys : Finset κ) : HotKey κ :=
  { keys := keys, state := ∅ }

/-- Embeds `HotKey.press(key)`.  The boolean is whether `on_activate()` was
invoked. -/
def HotKey.press {κ : Type} [DecidableEq κ] (hk : HotKey κ) (k : κ) :
    HotKey κ × Bool :=
  if k ∈ hk.keys ∧ k ∉ hk.state then
    let st := insert k hk.state
    ({ hk with state := st }, decide (st = hk.keys))
  else (hk, false)

/-- Embeds `HotKey.release(key)`. -/
def HotKey.release {κ : Type} [DecidableEq κ] (hk : HotKey κ) (k : κ) : HotKey κ :=
  if k ∈ hk.state then { hk with state := hk.state.erase k } else hk

/-- A press or release fed to a `HotKey` by the listener callbacks. -/
inductive HKOp (κ : Type) where
  | press (k : κ)
  | release (k : κ)

/-- Runs a sequence of press/release calls against a `HotKey`, counting
`on_activate` invocations. -/
def HotKey.run {κ : Type} [DecidableEq κ] : HotKey κ → List (HKOp κ) → HotKey κ × Nat
  | hk, [] => (hk, 0)
  | hk, op :: rest =>
      let (hk1, fired) :=
        match op with
        | .press k => hk.press k
        | .release k => (hk.release k, false)
      let (hk2, n) := hk1.run rest
      (hk2, (if fired then 1 else 0) + n)

/-- A parsed part of a hotkey combination: a canonical-modifier `Key`
member, or a `KeyCode`. -/
inductive HKey where
  | key (k : Key)
  | code (kc : KeyCode)
deriving DecidableEq, Repr

/-- The `Key[name]` lookup used by `HotKey.parse` over the member names of
the `Key` enumeration. -/
def keyByName : String → Option Key
  | "alt" => some .alt
  | "alt_l" => some .alt_l
  | "alt_r" => some .alt_r
  | "alt_gr" => some .alt_gr
  | "backspace" => some .backspace
  | "caps_lock" => some .caps_lock
  | "cmd" => some .cmd
  | "cmd_l" => some .cmd_l
  | "cmd_r" => some .cmd_r
  | "ctrl" => some .ctrl
  | "ctrl_l" => some .ctrl_l
  | "ctrl_r" => some .ctrl_r
  | "delete" => some .delete
  | "down" => some .down
  | "end" => some .«end»
  | "enter" => some .enter
  | "esc" => some .esc
  | "f1" => some .f1
  | "f2" => some .f2
  | "f3" => some .f3
  | "f4" => some .f4
  | "f5" => some .f5
  | "f6" => some .f6
  | "f7" => some .f7
  | "f8" => some .f8
  | "f9" => some .f9
  | "f10" => some .f10
  | "f11" => some .f11
  | "f12" => some .f12
  | "f13" => some .f13
  | "f14" => some .f14
  | "f15" => some .f15
  | "f16" => some .f16
  | "f17" => some .f17
  | "f18" => some .f18
  | "f19" => some .f19
  | "f20" => some .f20
  | "home" => some .home
  | "left" => some .left
  | "page_down" => some .page_down
  | "page_up" => some .page_up
  | "right" => some .right
  | "shift" => some .shift
  | "shift_l" => some .shift_l
  | "shift_r" => some .shift_r
  | "space" => some .space
  | "tab" => some .tab
  | "up" => some .up
  | "insert" => some .insert
  | "menu" => some .menu
  | "num_lock" => some .num_lock
  | "pause" => some .pause
  | "print_screen" => some .print_screen
  | "scroll_lock" => some .scroll_lock
  | _ => none

/-- Membership in `_NORMAL_MODIFIERS.values()`: the canonical modifiers of
the `_MODIFIER_KEYS` table. -/
def isNormalModifier (k : Key) : Bool :=
  k ∈ [Key.alt_gr, Key.alt, Key.cmd, Key.ctrl, Key.shift]

/-- Parses a non-empty run of decimal digits. -/
def digitsToNat? : List Char → Option Nat
  | [] => none
  | l => if l.all Char.isDigit then
      some (l.foldl (fun n c => 10 * n + (c.toNat - 48)) 0)
    else none

/-- Python `int(p)` on the content of a bracketed segment (`int` is a
language builtin; this models the digits-with-optional-sign core of its
grammar, which is all the parser relies on). -/
def pyInt? (s : String) : Option Int :=
  match s.toList with
  | '-' :: rest => (digitsToNat? rest).map (fun n => -(n : Int))
  | '+' :: rest => (digitsToNat? rest).map (fun n => (n : Int))
  | l => (digitsToNat? l).map (fun n => (n : Int))

/-- The slice `keys[a:b]` on a character list. -/
def strSlice (l : List Char) (a b : Nat) : String :=
  String.mk ((l.drop a).take (b - a))

/-- Python `enumerate`. -/
def enumerate {α : Type} : Nat → List α → List (Nat × α)
  | _, [] => []
  | i, a :: rest => (i, a) :: enumerate (i + 1) rest

/-- The body of the `for i, c in enumerate(keys)` loop of the `parts()`
generator inside `HotKey.parse`: a `'+'` at an index different from the
current segment start ends a segment (yielding `keys[start:i]`) and moves
`start` past it; any other character — including a `'+'` standing at the
segment start — leaves the accumulator unchanged. -/
def partsStep (l : List Char) (acc : List String × Nat) (ic : Nat × Char) :
    List String × Nat :=
  if ic.2 = '+' ∧ ic.1 ≠ acc.2 then
    (acc.1 ++ [strSlice l acc.2 ic.1], ic.1 + 1)
  else acc

/-- The whole `for i, c in enumerate(keys)` loop: the yielded segments
together with the final value of `start`. -/
def partsLoop (l : List Char) : List String × Nat :=
  (enumerate 0 l).foldl (partsStep l) ([], 0)

/-- The full `parts()` generator: after the loop, `start == len(keys)`
raises `ValueError(keys)`, otherwise the remainder is the last segment. -/
def hotParts (keys : String) : Except PyError (List String) :=
  let l := keys.toList
  let (segs, start) := partsLoop l
  if start = l.length then .error (.valueErrorStr keys)
  else .ok (segs ++ [strSlice l start l.length])

/-- The inner `parse(s)` of `HotKey.parse`: a single character becomes a
lower-cased `KeyCode`; `<name>` resolves against the `Key` table (canonical
modifiers stay `Key` members, other named keys become the `KeyCode` of their
platform virtual code, asserted to exist) or, failing that, against
`int(name)`; everything else raises `ValueError(s)`.  `vkOf` is the
backend's `Key.value.vk` payload (`none` models a missing value or virtual
code, which trips the assertions). -/
def parseSegment (vkOf : Key → Option Int) (s : String) : Except PyError HKey :=
  if s.length = 1 then .ok (.code (KeyCode.from_char (strLower s)))
  else if 2 < s.length ∧ s.front = '<' ∧ s.back = '>' then
    let p := (s.drop 1).dropRight 1
    match keyByName (strLower p) with
    | some key =>
        if isNormalModifier key then .ok (.key key)
        else
          match vkOf key with
          | some vk => .ok (.code (KeyCode.from_vk vk))
          | none => .error (.assertionError "Key has no value")
    | none =>
        match pyInt? p with
        | some vk => .ok (.code (KeyCode.from_vk vk))
        | none => .error (.valueErrorStr s)
  else .error (.valueErrorStr s)

/-- The list comprehension `[parse(s) for s in raw_parts]`: the segments
are parsed left to right and the first exception aborts the whole
comprehension. -/
def mapParse (vkOf : Key → Option Int) : List String → Except PyError (List HKey)
  | [] => .ok []
  | s :: rest =>
      match parseSegment vkOf s with
      | .error e => .error e
      | .ok h =>
          match mapParse vkOf rest with
          | .error e => .error e
          | .ok hs => .ok (h :: hs)

/-- Embeds `HotKey.parse(keys)`: split into parts, parse each, and reject
duplicate resolved parts with `ValueError(keys)`. -/
def hotkeyParse (vkOf : Key → Option Int) (keys : String) :
    Except PyError (List HKey) :=
  match hotParts keys with
  | .error e => .error e
  | .ok raw =>
      match mapParse vkOf raw with
      | .error e => .error e
      | .ok parsed =>
          if parsed.length ≠ parsed.dedup.length then .error (.valueErrorStr keys)
          else .ok parsed

/-- Whether a segment parses successfully. -/
def parseOk (vkOf : Key → Option Int) (s : String) : Bool :=
  match parseSegment vkOf s with
  | .ok _ => true
  | .error _ => false

/-- Mouse `Controller._check_bounds(*args)` from `mouse/_xorg.py`: every
coordinate must lie in the signed 16-bit range, otherwise
`ValueError(args)`; in-range arguments are returned (Python's `int(p)` is
the identity on integers). -/
def _check_bounds (args : List Int) : Except PyError (List Int) :=
  if args.all (fun number => -0x7FFF - 1 ≤ number ∧ number ≤ 0x7FFF) then
    .ok args
  else .error (.valueErrorInts args)

/-- A concrete backend payload table for evaluating the embedding: distinct
virtual key codes for the modifier variants and caps lock (any backend
supplies some such table). -/
def demoValue : Key → KeyCode
  | .alt => KeyCode.from_vk 64
  | .alt_l => KeyCode.from_vk 65
  | .alt_r => KeyCode.from_vk 66
  | .alt_gr => KeyCode.from_vk 67
  | .cmd => KeyCode.from_vk 68
  | .cmd_l => KeyCode.from_vk 69
  | .cmd_r => KeyCode.from_vk 70
  | .ctrl => KeyCode.from_vk 71
  | .ctrl_l => KeyCode.from_vk 72
  | .ctrl_r => KeyCode.from_vk 73
  | .shift => KeyCode.from_vk 74
  | .shift_l => KeyCode.from_vk 75
  | .shift_r => KeyCode.from_vk 76
  | .caps_lock => KeyCode.from_vk 77
  | _ => KeyCode.from_vk 999

/-- A concrete backend whose injection primitive always succeeds. -/
def B0 : Backend :=
  { value := demoValue, nfc := fun s => s, handle := fun _ _ => .ok () }

/-- A concrete backend whose injection primitive raises `ValueError` for the
character `'!'` and succeeds otherwise. -/
def B1 : Backend :=
  { value := demoValue, nfc := fun s => s,
    handle := fun kc _ =>
      if kc = fcKC '!' then .error (.valueErrorKey kc) else .ok () }

/-- A concrete NFC map whose composition of `"q"` with the mark `"x"` is
empty (exercising the remaining failure branch of `join`). -/
def nfcW (s : String) : String := if s = "qx" then "" else s

/-- A concrete combining-mark lookup for `from_dead`. -/
def combW (s : String) : Option String := if s = "~" then some "x" else none

/-- A concrete `Key.value.vk` payload for evaluating `HotKey.parse`. -/
def vk0 (_ : Key) : Option Int := some 300

/-- A concrete dead key (a dead tilde with combining mark `"x"` under the
concrete lookup `combW`). -/
def dkW : KeyCode := { vk := 0, char := some "~", is_dead := true, combining := some "x" }

/-- C1: the claim states that `Controller.pressed(*keys)` releases the keys
in reverse order on exit.  Evaluating the embedded source on
`pressed('a')` around an empty body shows the exit path presses the key a
second time instead: the `_handle` log contains two press events and not a
single release event (the `finally` block at `_base.py:359` calls
`self.press`, not `self.release`). -/
theorem C1_pressed_presses_again :
    pressedScope B0 initC [KeyArg.str "a"] =
      ({ initC with log := [Event.handle (KeyCode.from_char "a") true,
                            Event.handle (KeyCode.from_char "a") true] }, none) ∧
    ((pressedScope B0 initC [KeyArg.str "a"]).1.log.all
      (fun e => match e with | .handle _ ip => ip)) = true := by
  decide

/-- C2: a string key of length other than 1 makes `press`/`release` fail
with `ValueError`, as claimed; but an unresolvable argument (neither a `Key`
member, a string, nor a `KeyCode`) does not fail with
`InvalidKeyException`: `_resolve` returns `None` and `_dispatch` crashes
with `AttributeError` at the `key.is_dead` access. -/
theorem C2_press_error_evaluation :
    press B0 initC (KeyArg.str "ab") = (initC, some (PyError.valueErrorStr "ab")) ∧
    press B0 initC (KeyArg.str "") = (initC, some (PyError.valueErrorStr "")) ∧
    release B0 initC (KeyArg.str "ab") = (initC, some (PyError.valueErrorStr "ab")) ∧
    press B0 initC KeyArg.other = (initC, some PyError.attributeError) ∧
    release B0 initC KeyArg.other = (initC, some PyError.attributeError) := by
  decide

/-- A segment that is neither exactly one character nor an angle-bracketed
name of length at least 3 falls through to `raise ValueError(s)`. -/
theorem parseSegment_malformed (vkOf : Key → Option Int) (s : String)
    (h1 : s.length ≠ 1)
    (h2 : ¬(2 < s.length ∧ s.front = '<' ∧ s.back = '>')) :
    parseSegment vkOf s = .error (.valueErrorStr s) := by
  unfold parseSegment
  rw [if_neg h1, if_neg h2]

/-- The comprehension aborts with the error of the first failing segment. -/
theorem mapParse_append_fail (vkOf : Key → Option Int) (s : String)
    (e : PyError) (post : List String)
    (hs : parseSegment vkOf s = .error e) :
    ∀ (pre : List String), (∀ x ∈ pre, parseOk vkOf x = true) →
      mapParse vkOf (pre ++ s :: post) = .error e
  | [], _ => by
      simp only [List.nil_append, mapParse, hs]
  | x :: pre, hok => by
      have hx := hok x (List.mem_cons_self x pre)
      have hrec := mapParse_append_fail vkOf s e post hs pre
        (fun y hy => hok y (List.mem_cons_of_mem x hy))
      simp only [List.cons_append, mapParse]
      cases hpx : parseSegment vkOf x with
      | error e2 =>
          unfold parseOk at hx
          rw [hpx] at hx
          simp at hx
      | ok h =>
          dsimp only []
          rw [List.append_eq, hrec]

/-- Distributing `enumerate` over an append. -/
theorem enumerate_append {α : Type} :
    ∀ (xs ys : List α) (i : Nat),
      enumerate i (xs ++ ys) = enumerate i xs ++ enumerate (i + xs.length) ys
  | [], ys, i => by simp [enumerate]
  | x :: xs, ys, i => by
      have harith : i + 1 + xs.length = i + (xs.length + 1) := by omega
      simp only [List.cons_append, List.append_eq, enumerate,
        enumerate_append xs ys (i + 1), harith, List.length_cons]

/-- The `start` cursor of the `parts()` loop never outruns the scanned
prefix: starting with `start ≤ i0` and scanning from index `i0`, it ends at
most one past the last scanned index. -/
theorem partsStep_start_le (l : List Char) :
    ∀ (xs : List Char) (i0 : Nat) (acc : List String × Nat), acc.2 ≤ i0 →
      ((enumerate i0 xs).foldl (partsStep l) acc).2 ≤ i0 + xs.length
  | [], i0, acc, h => by
      simp only [enumerate, List.foldl_nil]
      omega
  | x :: xs, i0, acc, h => by
      simp only [enumerate, List.foldl_cons]
      have hstep : (partsStep l acc (i0, x)).2 ≤ i0 + 1 := by
        unfold partsStep
        by_cases hcond : (i0, x).2 = '+' ∧ (i0, x).1 ≠ acc.2
        · rw [if_pos hcond]
        · rw [if_neg hcond]
          show acc.2 ≤ i0 + 1
          omega
      have hrest := partsStep_start_le l xs (i0 + 1) (partsStep l acc (i0, x)) hstep
      simp only [List.length_cons]
      omega

/-- Every combination string ending in a `'+'` that directly follows a
non-`'+'` character (a trailing separator) makes `parts()` raise
`ValueError(keys)`: the final `'+'` is a separator, so the loop ends with
`start == len(keys)`. -/
theorem hotParts_trailing_sep (u : List Char) (c : Char) (hc : c ≠ '+') :
    hotParts (String.mk (u ++ [c, '+'])) =
      .error (.valueErrorStr (String.mk (u ++ [c, '+']))) := by
  have hstart : (partsLoop (u ++ [c, '+'])).2 = u.length + 2 := by
    unfold partsLoop
    rw [enumerate_append u [c, '+'] 0, List.foldl_append]
    have hacc := partsStep_start_le (u ++ [c, '+']) u 0 ([], 0) (Nat.le_refl 0)
    set accu := (enumerate 0 u).foldl (partsStep (u ++ [c, '+'])) ([], 0) with haccu
    simp only [enumerate, List.foldl_cons, List.foldl_nil, Nat.zero_add]
    have h1 : partsStep (u ++ [c, '+']) accu (u.length, c) = accu := by
      unfold partsStep
      exact if_neg (fun hcon => hc hcon.1)
    rw [h1]
    have h2 : (partsStep (u ++ [c, '+']) accu (u.length + 1, '+')).2 =
        u.length + 2 := by
      unfold partsStep
      rw [if_pos ⟨rfl, by omega⟩]
    exact h2
  unfold hotParts
  dsimp only []
  rw [show (String.mk (u ++ [c, '+'])).toList = u ++ [c, '+'] from rfl]
  rcases hpl : partsLoop (u ++ [c, '+']) with ⟨segs, start⟩
  have hst : start = u.length + 2 := by rw [← hstart, hpl]
  dsimp only []
  rw [if_pos (by simp [hst])]

/-- C7 counterexample: the claim states that every combination string
containing a doubled `'+'` raises `ValueError`, but `"a++"` contains a
doubled `'+'` and parses successfully — the `parts()` loop treats a `'+'`
standing at the start of a segment as literal content, so `"a++"` denotes
the two keys `'a'` and `'+'`. -/
theorem C7_doubled_plus_parses :
    hotkeyParse vk0 "a++" =
      .ok [HKey.code (KeyCode.from_char "a"), HKey.code (KeyCode.from_char "+")] := by
  decide

/-- C7 amended: `HotKey.parse` raises `ValueError` (i) for every segment
that is neither exactly one character nor an angle-bracketed `<name>` —
stated both for the segment parser itself and for any combination string
one of whose split segments is such a malformed one (with all earlier
segments well-formed); (ii) for every combination string whose resolved
parts contain a duplicate; and (iii) for every combination string ending
in a `'+'` that directly follows a non-`'+'` character (a trailing
separator).  A `'+'` standing at the start of a segment is literal, so
`"a++"` parses as the keys `'a'` and `'+'`; and `"<ctrl>+<alt>+t"` parses
to exactly 3 distinct parts. -/
theorem C7_parse_amended :
    (∀ (vkOf : Key → Option Int) (s : String), s.length ≠ 1 →
      ¬(2 < s.length ∧ s.front = '<' ∧ s.back = '>') →
      parseSegment vkOf s = .error (.valueErrorStr s)) ∧
    (∀ (vkOf : Key → Option Int) (keys s : String) (pre post : List String),
      hotParts keys = .ok (pre ++ s :: post) →
      (∀ x ∈ pre, parseOk vkOf x = true) →
      s.length ≠ 1 → ¬(2 < s.length ∧ s.front = '<' ∧ s.back = '>') →
      hotkeyParse vkOf keys = .error (.valueErrorStr s)) ∧
    (∀ (vkOf : Key → Option Int) (keys : String) (raw : List String)
        (parsed : List HKey),
      hotParts keys = .ok raw → mapParse vkOf raw = .ok parsed →
      ¬parsed.Nodup →
      hotkeyParse vkOf keys = .error (.valueErrorStr keys)) ∧
    (∀ (vkOf : Key → Option Int) (u : List Char) (c : Char), c ≠ '+' →
      hotkeyParse vkOf (String.mk (u ++ [c, '+'])) =
        .error (.valueErrorStr (String.mk (u ++ [c, '+'])))) ∧
    hotkeyParse vk0 "<ctrl>+<alt>+t" =
      .ok [HKey.key Key.ctrl, HKey.key Key.alt, HKey.code (KeyCode.from_char "t")] ∧
    hotkeyParse vk0 "a+a" = .error (.valueErrorStr "a+a") ∧
    hotkeyParse vk0 "ctrl+a" = .error (.valueErrorStr "ctrl") ∧
    hotkeyParse vk0 "a+" = .error (.valueErrorStr "a+") ∧
    hotkeyParse vk0 "+a" = .error (.valueErrorStr "+a") ∧
    hotkeyParse vk0 "a++b" = .error (.valueErrorStr "+b") ∧
    hotkeyParse vk0 "a++" =
      .ok [HKey.code (KeyCode.from_char "a"), HKey.code (KeyCode.from_char "+")] := by
  refine ⟨?_, ?_, ?_, ?_, by decide, by decide, by decide, by decide, by decide,
    by decide, by decide⟩
  · intro vkOf s h1 h2
    exact parseSegment_malformed vkOf s h1 h2
  · intro vkOf keys s pre post hparts hok h1 h2
    unfold hotkeyParse
    rw [hparts]
    dsimp only []
    rw [mapParse_append_fail vkOf s (.valueErrorStr s) post
      (parseSegment_malformed vkOf s h1 h2) pre hok]
  · intro vkOf keys raw parsed h1 h2 hnd
    have hlen : parsed.length ≠ parsed.dedup.length := by
      intro he
      refine hnd ?_
      have hsub : parsed.dedup.Sublist parsed := List.dedup_sublist parsed
      have heq : parsed.dedup = parsed := hsub.eq_of_length he.symm
      rw [← heq]
      exact List.nodup_dedup parsed
    unfold hotkeyParse
    rw [h1]
    dsimp only []
    rw [h2]
    dsimp only []
    rw [if_pos hlen]
  · intro vkOf u c hc
    unfold hotkeyParse
    rw [hotParts_trailing_sep u c hc]

/-- C7 amended witness: the universal clauses applied at concrete inputs —
the malformed segment `"ctrl"` alone and inside `"a+ctrl"`, the duplicate
in `"b+b"`, and the trailing separator of `"xy+"`. -/
theorem C7_parse_amended_witness :
    parseSegment vk0 "ctrl" = .error (.valueErrorStr "ctrl") ∧
    hotkeyParse vk0 "a+ctrl" = .error (.valueErrorStr "ctrl") ∧
    hotkeyParse vk0 "b+b" = .error (.valueErrorStr "b+b") ∧
    hotkeyParse vk0 (String.mk (['x'] ++ ['y', '+'])) =
      .error (.valueErrorStr (String.mk (['x'] ++ ['y', '+']))) :=
  ⟨C7_parse_amended.1 vk0 "ctrl" (by decide) (by decide),
   C7_parse_amended.2.1 vk0 "a+ctrl" "ctrl" ["a"] [] (by decide) (by decide)
     (by decide) (by decide),
   C7_parse_amended.2.2.1 vk0 "b+b" ["b", "b"]
     [HKey.code (KeyCode.from_char "b"), HKey.code (KeyCode.from_char "b")]
     (by decide) (by decide) (by decide),
   C7_parse_amended.2.2.2.1 vk0 ['x'] 'y' (by decide)⟩

/-- C9: the mouse `_check_bounds` accepts every argument tuple whose
coordinates all lie in the signed 16-bit range `[-32768, 32767]` and
returns them unchanged, and raises `ValueError` whenever some coordinate
lies outside that range. -/
theorem C9_check_bounds (args1 args2 : List Int) (n : Int)
    (h1 : ∀ x ∈ args1, -32768 ≤ x ∧ x ≤ 32767)
    (h2 : n ∈ args2) (h3 : n < -32768 ∨ 32767 < n) :
    _check_bounds args1 = .ok args1 ∧
    _check_bounds args2 = .error (.valueErrorInts args2) := by
  constructor
  · unfold _check_bounds
    rw [if_pos]
    simp only [List.all_eq_true, decide_eq_true_eq]
    intro x hx
    have := h1 x hx
    omega
  · unfold _check_bounds
    rw [if_neg]
    simp only [List.all_eq_true, decide_eq_true_eq, not_forall]
    refine ⟨n, h2, ?_⟩
    omega

/-- C9 witness: `(32767, -32768)` is accepted, `(32768, 0)` is rejected. -/
theorem C9_check_bounds_witness :
    _check_bounds [32767, -32768] = .ok [32767, -32768] ∧
    _check_bounds [32768, 0] = .error (.valueErrorInts [32768, 0]) :=
  C9_check_bounds [32767, -32768] [32768, 0] 32768 (by decide) (by decide)
    (by decide)

/-- C6: `HotKey.press(key)` adds `key` to the state exactly when
`key ∈ keys` and it is not already held; `on_activate` fires exactly when
that addition makes the state equal the key set; when the state already
equals the key set a further press never fires (no re-fire until a release
removes a key — presses only grow the state, and only `release` shrinks
it); `release` removes the key from the state. -/
theorem C6_hotkey_activation {κ : Type} [DecidableEq κ] (hk : HotKey κ) (k : κ) :
    ((hk.press k).2 = true ↔
      k ∈ hk.keys ∧ k ∉ hk.state ∧ insert k hk.state = hk.keys) ∧
    ((hk.press k).1.state =
      if k ∈ hk.keys ∧ k ∉ hk.state then insert k hk.state else hk.state) ∧
    ((hk.press k).1.keys = hk.keys) ∧
    (hk.state ⊆ (hk.press k).1.state) ∧
    ((hk.press k).2 = true → (hk.press k).1.state = hk.keys) ∧
    (hk.state = hk.keys → (hk.press k).2 = false) ∧
    ((hk.release k).keys = hk.keys) ∧
    ((hk.release k).state = hk.state.erase k) := by
  refine ⟨?_, ?_, ?_, ?_, ?_, ?_, ?_, ?_⟩
  · by_cases h : k ∈ hk.keys ∧ k ∉ hk.state
    · simp [HotKey.press, h, h.1, h.2]
    · unfold HotKey.press; rw [if_neg h]
      constructor
      · intro hf
        exact absurd hf (by simp)
      · intro hcon
        exact absurd ⟨hcon.1, hcon.2.1⟩ h
  · by_cases h : k ∈ hk.keys ∧ k ∉ hk.state
    · unfold HotKey.press; rw [if_pos h, if_pos h]
    · unfold HotKey.press; rw [if_neg h, if_neg h]
  · by_cases h : k ∈ hk.keys ∧ k ∉ hk.state
    · unfold HotKey.press; rw [if_pos h]
    · unfold HotKey.press; rw [if_neg h]
  · by_cases h : k ∈ hk.keys ∧ k ∉ hk.state
    · unfold HotKey.press; rw [if_pos h]
      exact Finset.subset_insert _ _
    · unfold HotKey.press; rw [if_neg h]
  · by_cases h : k ∈ hk.keys ∧ k ∉ hk.state
    · unfold HotKey.press; rw [if_pos h]
      simp only [decide_eq_true_eq]
      exact fun hf => hf
    · unfold HotKey.press; rw [if_neg h]
      intro hf
      exact absurd hf (by simp)
  · intro hkeq
    have hcond : ¬(k ∈ hk.keys ∧ k ∉ hk.state) := by
      rw [hkeq]
      intro hcon
      exact hcon.2 hcon.1
    unfold HotKey.press; rw [if_neg hcond]
  · by_cases hs : k ∈ hk.state
    · unfold HotKey.release; rw [if_pos hs]
    · unfold HotKey.release; rw [if_neg hs]
  · by_cases hs : k ∈ hk.state
    · unfold HotKey.release; rw [if_pos hs]
    · unfold HotKey.release; rw [if_neg hs, Finset.erase_eq_of_not_mem hs]

/-- C6 witness: with keys `{0, 1, 2}` (standing for ctrl, shift and `'t'`),
pressing the last missing key fires; once all keys are held a repeated
press does not re-fire; after releasing a key, re-pressing it fires
again. -/
theorem C6_hotkey_activation_witness :
    ((HotKey.press ⟨{0, 1, 2}, {0, 1}⟩ 2).2 = true) ∧
    ((HotKey.press ⟨{0, 1, 2}, {0, 1, 2}⟩ 2).2 = false) ∧
    ((HotKey.release (⟨{0, 1, 2}, {0, 1, 2}⟩ : HotKey ℕ) 1).state =
      ({0, 1, 2} : Finset ℕ).erase 1) :=
  ⟨(C6_hotkey_activation ⟨{0, 1, 2}, {0, 1}⟩ 2).1.mpr (by decide),
   (C6_hotkey_activation ⟨{0, 1, 2}, {0, 1, 2}⟩ 2).2.2.2.2.2.1 (by decide),
   (C6_hotkey_activation (⟨{0, 1, 2}, {0, 1, 2}⟩ : HotKey ℕ) 1).2.2.2.2.2.2.2⟩

/-- For any starting `HotKey` whose state is inside its key set, running any
sequence of press/release calls keeps the state inside the (unchanged) key
set. -/
theorem hotkey_run_preserves {κ : Type} [DecidableEq κ] :
    ∀ (ops : List (HKOp κ)) (hk : HotKey κ), hk.state ⊆ hk.keys →
      ((hk.run ops).1.state ⊆ (hk.run ops).1.keys ∧ (hk.run ops).1.keys = hk.keys)
  | [], hk, h => ⟨h, rfl⟩
  | .press k :: rest, hk, h => by
      have hstep : (hk.press k).1.state ⊆ (hk.press k).1.keys ∧
          (hk.press k).1.keys = hk.keys := by
        unfold HotKey.press
        by_cases hc : k ∈ hk.keys ∧ k ∉ hk.state
        · rw [if_pos hc]
          exact ⟨Finset.insert_subset hc.1 h, rfl⟩
        · rw [if_neg hc]
          exact ⟨h, rfl⟩
      have ih := hotkey_run_preserves rest (hk.press k).1 hstep.1
      simp only [HotKey.run]
      exact ⟨ih.1, ih.2.trans hstep.2⟩
  | .release k :: rest, hk, h => by
      have hstep : (hk.release k).state ⊆ (hk.release k).keys ∧
          (hk.release k).keys = hk.keys := by
        unfold HotKey.release
        by_cases hc : k ∈ hk.state
        · rw [if_pos hc]
          exact ⟨(Finset.erase_subset _ _).trans h, rfl⟩
        · rw [if_neg hc]
          exact ⟨h, rfl⟩
      have ih := hotkey_run_preserves rest (hk.release k) hstep.1
      simp only [HotKey.run]
      exact ⟨ih.1, ih.2.trans hstep.2⟩

/-- C8: starting from a freshly constructed `HotKey` (empty state), every
interleaving of press and release calls keeps the invariant
`state ⊆ keys` (every prefix of an interleaving is itself an interleaving,
so the invariant holds after every operation). -/
theorem C8_hotkey_state_subset {κ : Type} [DecidableEq κ]
    (keys : Finset κ) (ops : List (HKOp κ)) :
    ((HotKey.init keys).run ops).1.state ⊆ ((HotKey.init keys).run ops).1.keys ∧
    ((HotKey.init keys).run ops).1.keys = keys :=
  hotkey_run_preserves ops (HotKey.init keys)
    (by simp [HotKey.init])

/-- C10: releasing a key whose canonical modifier is not in the modifier
set raises no error (the `KeyError` of `set.remove` is swallowed), leaves
the state unchanged apart from the forwarded `_handle(key, False)` call. -/
theorem C10_release_absent_modifier (B : Backend) (s : CState) (key : KeyCode)
    (m : Key)
    (hok : ∀ k ip, B.handle k ip = Except.ok ())
    (hm : _as_modifier B key = some m)
    (habs : m ∉ s.modifiers)
    (hnd : key.is_dead = false) :
    _dispatch B s key false =
      ({ s with log := s.log ++ [Event.handle key false] }, none) := by
  unfold _dispatch _dispatchMod
  rw [hm]
  simp only [Bool.false_eq_true, if_false, hnd, _handleB, hok,
    List.erase_of_not_mem habs]

/-- C10 witness: releasing the left Alt variant with an empty modifier set
forwards the release and changes nothing else. -/
theorem C10_release_absent_modifier_witness :
    _dispatch B0 initC (B0.value Key.alt_l) false =
      ({ initC with log := [Event.handle (B0.value Key.alt_l) false] }, none) :=
  C10_release_absent_modifier B0 initC (B0.value Key.alt_l) Key.alt
    (fun _ _ => rfl) (by decide) (by decide) (by decide)

/-- The modifier stage touches only the modifier set. -/
theorem dispatchMod_fields (B : Backend) (s : CState) (key : KeyCode) (ip : Bool) :
    (_dispatchMod B s key ip).dead_key = s.dead_key ∧
    (_dispatchMod B s key ip).log = s.log ∧
    (_dispatchMod B s key ip).caps_lock = s.caps_lock := by
  unfold _dispatchMod
  cases _as_modifier B key with
  | none => exact ⟨rfl, rfl, rfl⟩
  | some m => cases ip <;> exact ⟨rfl, rfl, rfl⟩

/-- The caps-lock stage touches only the caps-lock flag. -/
theorem dispatchCaps_fields (B : Backend) (s : CState) (key : KeyCode) :
    (_dispatchCaps B s key).dead_key = s.dead_key ∧
    (_dispatchCaps B s key).log = s.log ∧
    (_dispatchCaps B s key).modifiers = s.modifiers := by
  unfold _dispatchCaps
  split <;> exact ⟨rfl, rfl, rfl⟩

/-- The press core with a pending dead key whose join with a non-dead new
key fails: the pending dead key is flushed as a press+release pair, the new
key is handled, and the pending dead key is cleared — three `_handle` calls
in order. -/
theorem dispatchPress_flush (B : Backend) (s2 : CState) (dk key : KeyCode)
    (hok : ∀ k ip, B.handle k ip = Except.ok ())
    (hdk : s2.dead_key = some dk)
    (hjoin : KeyCode.join B.nfc dk key = .error (.valueErrorKey key))
    (hnd : key.is_dead = false) :
    _dispatchPress B s2 key =
      ({ s2 with
          dead_key := none
          log := s2.log ++ [Event.handle dk true, Event.handle dk false,
                            Event.handle key true] }, none) := by
  unfold _dispatchPress
  rw [hdk]
  simp only [hjoin, _handleB, hok, hnd, Bool.false_eq_true, if_false,
    List.append_assoc, List.singleton_append, List.cons_append, List.nil_append]

/-- The press core with no pending dead key stashes a dead key and makes no
`_handle` call. -/
theorem dispatchPress_stash (B : Backend) (s2 : CState) (key : KeyCode)
    (hdk : s2.dead_key = none) (hd : key.is_dead = true) :
    _dispatchPress B s2 key = ({ s2 with dead_key := some key }, none) := by
  unfold _dispatchPress
  rw [hdk]
  simp [hd]

/-- C3: in `_dispatch`, (i) a press with a pending dead key whose join with
the (non-dead) new key fails flushes the pending dead key as an independent
press+release pair through `_handle` before handling the new key — three
`_handle` calls in order — and clears the pending dead key; (ii) a newly
pressed dead key (no pending one) is stashed and `_dispatch` returns
without calling `_handle`; (iii) a released dead key never reaches
`_handle`. -/
theorem C3_dispatch_dead_key (B : Backend) (sa sb sc : CState)
    (dk ka kb kc3 : KeyCode)
    (hok : ∀ k ip, B.handle k ip = Except.ok ())
    (ha1 : sa.dead_key = some dk)
    (ha2 : KeyCode.join B.nfc dk ka = .error (.valueErrorKey ka))
    (ha3 : ka.is_dead = false)
    (hb1 : sb.dead_key = none)
    (hb2 : kb.is_dead = true)
    (hc1 : kc3.is_dead = true) :
    ((_dispatch B sa ka true).1.log =
      sa.log ++ [Event.handle dk true, Event.handle dk false,
                 Event.handle ka true]) ∧
    ((_dispatch B sa ka true).1.dead_key = none) ∧
    ((_dispatch B sa ka true).2 = none) ∧
    ((_dispatch B sb kb true).1.dead_key = some kb) ∧
    ((_dispatch B sb kb true).1.log = sb.log) ∧
    ((_dispatch B sb kb true).2 = none) ∧
    ((_dispatch B sc kc3 false).1.log = sc.log) ∧
    ((_dispatch B sc kc3 false).2 = none) := by
  have ea : _dispatch B sa ka true =
      _dispatchPress B (_dispatchCaps B (_dispatchMod B sa ka true) ka) ka := rfl
  have hadk : (_dispatchCaps B (_dispatchMod B sa ka true) ka).dead_key = some dk := by
    rw [(dispatchCaps_fields B _ ka).1, (dispatchMod_fields B sa ka true).1, ha1]
  have halog : (_dispatchCaps B (_dispatchMod B sa ka true) ka).log = sa.log := by
    rw [(dispatchCaps_fields B _ ka).2.1, (dispatchMod_fields B sa ka true).2.1]
  have eaflush := dispatchPress_flush B _ dk ka hok hadk ha2 ha3
  have eb : _dispatch B sb kb true =
      _dispatchPress B (_dispatchCaps B (_dispatchMod B sb kb true) kb) kb := rfl
  have hbdk : (_dispatchCaps B (_dispatchMod B sb kb true) kb).dead_key = none := by
    rw [(dispatchCaps_fields B _ kb).1, (dispatchMod_fields B sb kb true).1, hb1]
  have hblog : (_dispatchCaps B (_dispatchMod B sb kb true) kb).log = sb.log := by
    rw [(dispatchCaps_fields B _ kb).2.1, (dispatchMod_fields B sb kb true).2.1]
  have ebstash := dispatchPress_stash B _ kb hbdk hb2
  have ec : _dispatch B sc kc3 false =
      (_dispatchMod B sc kc3 false, none) := by
    unfold _dispatch
    simp [hc1]
  refine ⟨?_, ?_, ?_, ?_, ?_, ?_, ?_, ?_⟩
  · rw [ea, eaflush]
    simp only [halog]
  · rw [ea, eaflush]
  · rw [ea, eaflush]
  · rw [eb, ebstash]
  · rw [eb, ebstash]
    simp only [hblog]
  · rw [eb, ebstash]
  · rw [ec]
    exact (dispatchMod_fields B sc kc3 false).2.1
  · rw [ec]

/-- C3 witness: with a pending dead tilde, pressing an uncomposable
virtual-key code flushes the tilde and handles the key (three `_handle`
calls); pressing the dead tilde on a fresh controller stashes it silently;
releasing the dead tilde makes no `_handle` call. -/
theorem C3_dispatch_dead_key_witness :
    ((_dispatch B0 { initC with dead_key := some dkW } (KeyCode.from_vk 42) true).1.log =
      [Event.handle dkW true, Event.handle dkW false,
       Event.handle (KeyCode.from_vk 42) true]) ∧
    ((_dispatch B0 { initC with dead_key := some dkW } (KeyCode.from_vk 42) true).1.dead_key = none) ∧
    ((_dispatch B0 { initC with dead_key := some dkW } (KeyCode.from_vk 42) true).2 = none) ∧
    ((_dispatch B0 initC dkW true).1.dead_key = some dkW) ∧
    ((_dispatch B0 initC dkW true).1.log = []) ∧
    ((_dispatch B0 initC dkW true).2 = none) ∧
    ((_dispatch B0 initC dkW false).1.log = []) ∧
    ((_dispatch B0 initC dkW false).2 = none) :=
  C3_dispatch_dead_key B0 { initC with dead_key := some dkW } initC initC
    dkW (KeyCode.from_vk 42) dkW dkW (fun _ _ => rfl) (by decide) (by decide)
    (by decide) (by decide) (by decide) (by decide)

/-- C4: for a dead key `d` (character `dc`, combining mark `m`) and arbitrary
keys, `join` returns the non-dead form of `d.char` when the other key's
character is a space or the other key is dead with the same character
(`k1`); otherwise, for a key carrying a character (`k2`), it returns
`from_char` of the NFC normalisation of `k2.char ++ m` when that is
non-empty; it fails with `ValueError`/`InvalidComposition` carrying the
other key when that key has no character (`k3`) or the normalisation is
empty (`k4`); and in particular `from_dead(ch).join(from_char(' '))` equals
`from_char(ch)`. -/
theorem C4_join_composition (nfc : String → String) (combMap : String → Option String)
    (d k1 k2 k3 k4 d2 : KeyCode) (m dc c2 c4 ch : String)
    ( _hdead : d.is_dead = true) (hchar : d.char = some dc) (hcomb : d.combining = some m)
    (h1 : k1.char = some " " ∨ (k1.is_dead = true ∧ k1.char = d.char))
    (h2c : k2.char = some c2)
    (h2n : ¬(k2.char = some " " ∨ (k2.is_dead = true ∧ k2.char = d.char)))
    (h2ne : nfc (c2 ++ m) ≠ "")
    (h3 : k3.char = none)
    (h4c : k4.char = some c4)
    (h4n : ¬(k4.char = some " " ∨ (k4.is_dead = true ∧ k4.char = d.char)))
    (h4e : nfc (c4 ++ m) = "")
    (hd2 : KeyCode.from_dead combMap ch = some d2) :
    KeyCode.join nfc d k1 =
      .ok { vk := 0, char := d.char, is_dead := false, combining := none } ∧
    KeyCode.join nfc d k2 = .ok (KeyCode.from_char (nfc (c2 ++ m))) ∧
    KeyCode.join nfc d k3 = .error (.valueErrorKey k3) ∧
    KeyCode.join nfc d k4 = .error (.valueErrorKey k4) ∧
    KeyCode.join nfc d2 (KeyCode.from_char " ") = .ok (KeyCode.from_char ch) := by
  refine ⟨?_, ?_, ?_, ?_, ?_⟩
  · unfold KeyCode.join
    rw [if_pos]
    rcases h1 with h | h
    · exact Or.inl h
    · exact Or.inr ⟨by rw [h.1], h.2⟩
  · unfold KeyCode.join
    rw [if_neg h2n, h2c]
    rw [hcomb]
    simp only [Option.getD_some, ne_eq, h2ne, not_false_eq_true, if_true,
      if_pos]
  · unfold KeyCode.join
    rw [if_neg, h3]
    intro hcon
    rcases hcon with hsp | ⟨_, hde⟩
    · rw [h3] at hsp
      exact Option.noConfusion hsp
    · rw [h3, hchar] at hde
      exact Option.noConfusion hde
  · unfold KeyCode.join
    rw [if_neg h4n, h4c, hcomb]
    simp only [Option.getD_some, h4e, ne_eq, not_true_eq_false, if_false,
      ite_self]
  · unfold KeyCode.from_dead at hd2
    rcases hmc : combMap ch with _ | mm
    · rw [hmc] at hd2
      exact Option.noConfusion hd2
    · rw [hmc] at hd2
      dsimp only [] at hd2
      by_cases hmm : mm = ""
      · rw [if_pos hmm] at hd2
        exact Option.noConfusion hd2
      · rw [if_neg hmm] at hd2
        have hd2' := Option.some.inj hd2
        unfold KeyCode.join
        rw [if_pos (Or.inl (show (KeyCode.from_char " ").char = some " " from rfl))]
        rw [← hd2']
        rfl

/-- C4 witness: the dead tilde (combining mark `"x"` under the concrete
lookup `combW` and normalisation `nfcW`) joins with space, with `"a"`, and
fails on a character-less key and on the empty composition `"qx"`. -/
theorem C4_join_composition_witness :
    KeyCode.join nfcW dkW (KeyCode.from_char " ") =
      .ok { vk := 0, char := some "~", is_dead := false, combining := none } ∧
    KeyCode.join nfcW dkW (KeyCode.from_char "a") =
      .ok (KeyCode.from_char (nfcW ("a" ++ "x"))) ∧
    KeyCode.join nfcW dkW (KeyCode.from_vk 5) =
      .error (.valueErrorKey (KeyCode.from_vk 5)) ∧
    KeyCode.join nfcW dkW (KeyCode.from_char "q") =
      .error (.valueErrorKey (KeyCode.from_char "q")) ∧
    KeyCode.join nfcW dkW (KeyCode.from_char " ") = .ok (KeyCode.from_char "~") :=
  C4_join_composition nfcW combW dkW (KeyCode.from_char " ") (KeyCode.from_char "a")
    (KeyCode.from_vk 5) (KeyCode.from_char "q") dkW "x" "~" "a" "q" "~"
    (by decide) (by decide) (by decide) (by decide) (by decide) (by decide)
    (by decide) (by decide) (by decide) (by decide) (by decide) (by decide)

/-- One-character Python strings have length 1. -/
theorem singleton_length (c : Char) : (String.singleton c).length = 1 := rfl

/-- A one-character string resolves to its `from_char` key code and is
dispatched as a press. -/
theorem press_str_eq (B : Backend) (s : CState) (c : Char) :
    press B s (.str (String.singleton c)) = _dispatch B s (fcKC c) true := by
  unfold press _resolve
  dsimp only []
  rw [if_neg (show ¬((String.singleton c).length ≠ 1) by simp [singleton_length])]
  rfl

/-- A one-character string resolves to its `from_char` key code and is
dispatched as a release. -/
theorem release_str_eq (B : Backend) (s : CState) (c : Char) :
    release B s (.str (String.singleton c)) = _dispatch B s (fcKC c) false := by
  unfold release _resolve
  dsimp only []
  rw [if_neg (show ¬((String.singleton c).length ≠ 1) by simp [singleton_length])]
  rfl

/-- Pressing a plain (non-modifier, non-caps, non-dead) key with no pending
dead key goes straight to `_handle`. -/
theorem dispatch_char_press (B : Backend) (s : CState) (kc : KeyCode)
    (h1 : _as_modifier B kc = none)
    (h2 : kc ≠ B.value Key.caps_lock)
    (hdk : s.dead_key = none)
    (hnd : kc.is_dead = false) :
    _dispatch B s kc true = _handleB B s kc true := by
  simp only [_dispatch, _dispatchMod, h1]
  rw [show _dispatchCaps B s kc = s from by unfold _dispatchCaps; rw [if_neg h2]]
  simp only [_dispatchPress, hdk, hnd, Bool.false_eq_true, if_false, ite_self]

/-- Releasing a plain non-modifier, non-dead key goes straight to
`_handle`. -/
theorem dispatch_char_release (B : Backend) (s : CState) (kc : KeyCode)
    (h1 : _as_modifier B kc = none)
    (hnd : kc.is_dead = false) :
    _dispatch B s kc false = _handleB B s kc false := by
  simp only [_dispatch, _dispatchMod, h1, hnd, Bool.false_eq_true, if_false]

/-- Successful press of one typed character: one logged `_handle` call. -/
theorem press_char_ok (B : Backend) (s : CState) (c : Char)
    (h1 : _as_modifier B (fcKC c) = none)
    (h2 : fcKC c ≠ B.value Key.caps_lock)
    (hdk : s.dead_key = none)
    (hh : B.handle (fcKC c) true = Except.ok ()) :
    press B s (.str (String.singleton c)) =
      ({ s with log := s.log ++ [Event.handle (fcKC c) true] }, none) := by
  rw [press_str_eq, dispatch_char_press B s (fcKC c) h1 h2 hdk rfl]
  unfold _handleB
  rw [hh]

/-- Failing press of one typed character: the `_handle` call is logged and
the backend error propagates. -/
theorem press_char_fail (B : Backend) (s : CState) (c : Char) (ec : PyError)
    (h1 : _as_modifier B (fcKC c) = none)
    (h2 : fcKC c ≠ B.value Key.caps_lock)
    (hdk : s.dead_key = none)
    (hh : B.handle (fcKC c) true = Except.error ec) :
    press B s (.str (String.singleton c)) =
      ({ s with log := s.log ++ [Event.handle (fcKC c) true] }, some ec) := by
  rw [press_str_eq, dispatch_char_press B s (fcKC c) h1 h2 hdk rfl]
  unfold _handleB
  rw [hh]

/-- Successful release of one typed character: one logged `_handle` call. -/
theorem release_char_ok (B : Backend) (s : CState) (c : Char)
    (h1 : _as_modifier B (fcKC c) = none)
    (hh : B.handle (fcKC c) false = Except.ok ()) :
    release B s (.str (String.singleton c)) =
      ({ s with log := s.log ++ [Event.handle (fcKC c) false] }, none) := by
  rw [release_str_eq, dispatch_char_release B s (fcKC c) h1 rfl]
  unfold _handleB
  rw [hh]

/-- Running `type` over characters the backend accepts presses and releases each
character in order, leaving the rest of the controller state unchanged. -/
theorem typeGo_all_ok (B : Backend) :
    ∀ (cs : List Char) (s : CState) (i : Nat),
      (∀ c ∈ cs, _as_modifier B (fcKC c) = none) →
      (∀ c ∈ cs, fcKC c ≠ B.value Key.caps_lock) →
      (∀ c ∈ cs, B.handle (fcKC c) true = Except.ok () ∧
                 B.handle (fcKC c) false = Except.ok ()) →
      s.dead_key = none →
      typeGo B s i cs = ({ s with log := s.log ++ pressReleaseEvents cs }, none)
  | [], s, i, _, _, _, _ => by
      simp [typeGo, pressReleaseEvents]
  | c :: rest, s, i, hm, hc, hh, hdk => by
      have hp := press_char_ok B s c (hm c (List.mem_cons_self c rest))
        (hc c (List.mem_cons_self c rest)) hdk (hh c (List.mem_cons_self c rest)).1
      have hr := release_char_ok B { s with log := s.log ++ [Event.handle (fcKC c) true] }
        c (hm c (List.mem_cons_self c rest)) (hh c (List.mem_cons_self c rest)).2
      simp only [typeGo, hp, hr]
      rw [typeGo_all_ok B rest
        { s with log := s.log ++ [Event.handle (fcKC c) true] ++
            [Event.handle (fcKC c) false] } (i + 1)
        (fun x hx => hm x (List.mem_cons_of_mem c hx))
        (fun x hx => hc x (List.mem_cons_of_mem c hx))
        (fun x hx => hh x (List.mem_cons_of_mem c hx)) hdk]
      simp [pressReleaseEvents, List.append_assoc]

/-- Running `type` into a character whose press raises `ValueError` after a run
of accepted characters: the accepted prefix is pressed and released in
order, the failing press call is logged, the error is rewrapped as
`InvalidCharacterException(index, char)`, and nothing later is
dispatched. -/
theorem typeGo_fail (B : Backend) (c : Char) (post : List Char) (ec : PyError)
    (hmc : _as_modifier B (fcKC c) = none)
    (hcc : fcKC c ≠ B.value Key.caps_lock)
    (hce : B.handle (fcKC c) true = Except.error ec)
    (hcv : ec.isValueError = true) :
    ∀ (pre : List Char) (s : CState) (i : Nat),
      (∀ x ∈ pre, _as_modifier B (fcKC x) = none) →
      (∀ x ∈ pre, fcKC x ≠ B.value Key.caps_lock) →
      (∀ x ∈ pre, B.handle (fcKC x) true = Except.ok () ∧
                  B.handle (fcKC x) false = Except.ok ()) →
      s.dead_key = none →
      typeGo B s i (pre ++ c :: post) =
        ({ s with log := (s.log ++ pressReleaseEvents pre) ++
            [Event.handle (fcKC c) true] },
         some (.invalidCharacter (i + pre.length) (String.singleton c)))
  | [], s, i, _, _, _, hdk => by
      have hp := press_char_fail B s c ec hmc hcc hdk hce
      simp only [List.nil_append, typeGo, hp]
      unfold rewrapValue
      rw [if_pos hcv]
      simp [pressReleaseEvents]
  | x :: pre, s, i, hm, hc, hh, hdk => by
      have hp := press_char_ok B s x (hm x (List.mem_cons_self x pre))
        (hc x (List.mem_cons_self x pre)) hdk (hh x (List.mem_cons_self x pre)).1
      have hr := release_char_ok B { s with log := s.log ++ [Event.handle (fcKC x) true] }
        x (hm x (List.mem_cons_self x pre)) (hh x (List.mem_cons_self x pre)).2
      simp only [List.cons_append, List.append_eq, typeGo, hp, hr]
      rw [typeGo_fail B c post ec hmc hcc hce hcv pre
        { s with log := s.log ++ [Event.handle (fcKC x) true] ++
            [Event.handle (fcKC x) false] } (i + 1)
        (fun y hy => hm y (List.mem_cons_of_mem x hy))
        (fun y hy => hc y (List.mem_cons_of_mem x hy))
        (fun y hy => hh y (List.mem_cons_of_mem x hy)) hdk]
      have hidx : i + 1 + pre.length = i + (pre.length + 1) := by omega
      simp [pressReleaseEvents, List.append_assoc, hidx]

/-- C5: `Controller.type` presses then releases each character in order
(first conjunct: a string of accepted characters produces exactly the
ordered press/release pairs).  When the press of some character fails with
`ValueError` (here: from the backend `_handle`, the only `ValueError`
source on this path), `type` fails with
`InvalidCharacterException(index, char)` at that first untypable
character; the log shows the keystrokes already dispatched for the
accepted prefix are kept (no rollback) and nothing is dispatched for any
later character. -/
theorem C5_type_first_failure (B : Backend) (s1 s2 : CState) (str1 : String)
    (pre post : List Char) (c : Char) (ec : PyError)
    (hm1 : ∀ ch ∈ str1.toList, _as_modifier B (fcKC ch) = none)
    (hc1 : ∀ ch ∈ str1.toList, fcKC ch ≠ B.value Key.caps_lock)
    (hh1 : ∀ ch ∈ str1.toList, B.handle (fcKC ch) true = Except.ok () ∧
           B.handle (fcKC ch) false = Except.ok ())
    (hd1 : s1.dead_key = none)
    (hm2 : ∀ ch ∈ pre, _as_modifier B (fcKC ch) = none)
    (hc2 : ∀ ch ∈ pre, fcKC ch ≠ B.value Key.caps_lock)
    (hh2 : ∀ ch ∈ pre, B.handle (fcKC ch) true = Except.ok () ∧
           B.handle (fcKC ch) false = Except.ok ())
    (hmc : _as_modifier B (fcKC c) = none)
    (hcc : fcKC c ≠ B.value Key.caps_lock)
    (hce : B.handle (fcKC c) true = Except.error ec)
    (hcv : ec.isValueError = true)
    (hd2 : s2.dead_key = none) :
    typeString B s1 str1 =
      ({ s1 with log := s1.log ++ pressReleaseEvents str1.toList }, none) ∧
    typeString B s2 (String.mk (pre ++ c :: post)) =
      ({ s2 with log := (s2.log ++ pressReleaseEvents pre) ++
          [Event.handle (fcKC c) true] },
       some (.invalidCharacter pre.length (String.singleton c))) := by
  constructor
  · exact typeGo_all_ok B str1.toList s1 0 hm1 hc1 hh1 hd1
  · have h := typeGo_fail B c post ec hmc hcc hce hcv pre s2 0 hm2 hc2 hh2 hd2
    simpa [typeString] using h

/-- C5 witness: with a backend rejecting `'!'` with `ValueError`, typing
`"ab"` dispatches the four press/release events in order, while typing
`"a!b"` keeps the dispatched events for `'a'`, logs the failing press call
for `'!'`, fails with `InvalidCharacterException(1, '!')`, and dispatches
nothing for `'b'`. -/
theorem C5_type_first_failure_witness :
    typeString B1 initC "ab" =
      ({ initC with log := initC.log ++ pressReleaseEvents "ab".toList }, none) ∧
    typeString B1 initC (String.mk (['a'] ++ '!' :: ['b'])) =
      ({ initC with log := (initC.log ++ pressReleaseEvents ['a']) ++
          [Event.handle (fcKC '!') true] },
       some (.invalidCharacter (['a'] : List Char).length (String.singleton '!'))) :=
  C5_type_first_failure B1 initC initC "ab" ['a'] ['b'] '!'
    (.valueErrorKey (fcKC '!'))
    (by decide) (by decide) (by decide) (by decide) (by decide) (by decide)
    (by decide) (by decide) (by decide) (by decide) (by decide) (by decide)

end Pynput
